import Mathlib

/-!
Verification development for the quantics strategy package.

The strategy decision methods (the next methods of the five strategy
classes) and the BacktestUtils methods (optimize_parameters,
compare_strategies) are embedded directly from the Python source under
src/.  The bar-by-bar execution engine, the broker and the performance
analyzers live in the external backtrader library and are therefore
modelled from the specification (sections 4.1, 4.3, 4.4 and 4.5); each
such definition carries a doc comment starting with Modelled from the
spec.  Prices and cash are rational numbers; share counts are natural
numbers.
-/

namespace Quantics

/-- Order direction, as in the broker interface. -/
inductive Side where
  | buy
  | sell
deriving DecidableEq

/-- An order as submitted by a strategy: a side and a requested size. -/
structure Order where
  side : Side
  size : ℕ
deriving DecidableEq

/-- Terminal order statuses of the broker state machine (section 4.3).
Completed means filled; margin and rejected mean no fill happened. -/
inductive OrderStatus where
  | completed
  | margin
  | rejected
deriving DecidableEq

/-- One OHLCV bar.  The strategies under verification read only the close. -/
structure Bar where
  timestamp : ℕ
  openPrice : ℚ
  high : ℚ
  low : ℚ
  close : ℚ
  volume : ℕ
deriving DecidableEq

/-- The view a strategy has of engine state inside its next method:
the current close, the available broker cash, the broker position size
and its own pending-order attribute (self.order in the source). -/
structure StratInput where
  close : ℚ
  cash : ℚ
  position : ℕ
  pending : Option Order
deriving DecidableEq

/-- The outcome of one call to a strategy next method: submit a buy,
submit a sell, or do nothing this bar. -/
inductive Action where
  | hold
  | submitBuy (size : ℕ)
  | submitSell (size : ℕ)
deriving DecidableEq

/-- MovingAverageCrossStrategy.next from
src/quantics/strategy/moving_average_strategy.py: return while an order
is pending; when flat and the crossover indicator is positive, buy
int(cash // price) shares if that is positive; when long and the
crossover is negative, sell the whole position. -/
def MovingAverageCrossStrategy.next (crossover : ℚ) (inp : StratInput) : Action :=
  if inp.pending.isSome then Action.hold
  else if inp.position = 0 then
    if 0 < crossover then
      let size : ℤ := (inp.cash / inp.close).floor
      if 0 < size then Action.submitBuy size.toNat else Action.hold
    else Action.hold
  else
    if crossover < 0 then Action.submitSell inp.position else Action.hold

/-- RSIStrategy.next from src/quantics/strategy/rsi_strategy.py: return
while an order is pending; when flat and rsi_value < rsi_low, buy
int(cash // price) shares if positive; when long and rsi_value >
rsi_high, sell the whole position. -/
def RSIStrategy.next (rsi_low rsi_high rsi_value : ℚ) (inp : StratInput) : Action :=
  if inp.pending.isSome then Action.hold
  else if inp.position = 0 then
    if rsi_value < rsi_low then
      let size : ℤ := (inp.cash / inp.close).floor
      if 0 < size then Action.submitBuy size.toNat else Action.hold
    else Action.hold
  else
    if rsi_high < rsi_value then Action.submitSell inp.position else Action.hold

/-- BollingerBandsStrategy.next from
src/quantics/strategy/bollinger_bands_strategy.py: return while an order
is pending; when flat and close < bottom band, buy int(cash // price)
shares if positive; when long and close > top band, sell the whole
position. -/
def BollingerBandsStrategy.next (top bot : ℚ) (inp : StratInput) : Action :=
  if inp.pending.isSome then Action.hold
  else if inp.position = 0 then
    if inp.close < bot then
      let size : ℤ := (inp.cash / inp.close).floor
      if 0 < size then Action.submitBuy size.toNat else Action.hold
    else Action.hold
  else
    if top < inp.close then Action.submitSell inp.position else Action.hold

/-- MACDStrategy.next from src/quantics/strategy/macd_strategy.py: same
shape as the moving-average variant, driven by the MACD crossover value. -/
def MACDStrategy.next (macd_crossover : ℚ) (inp : StratInput) : Action :=
  if inp.pending.isSome then Action.hold
  else if inp.position = 0 then
    if 0 < macd_crossover then
      let size : ℤ := (inp.cash / inp.close).floor
      if 0 < size then Action.submitBuy size.toNat else Action.hold
    else Action.hold
  else
    if macd_crossover < 0 then Action.submitSell inp.position else Action.hold

/-- BuyHoldStrategy.next from src/strategy/buy_hold_strategy.py: no
pending-order check in the source; when flat, buy int(cash // price)
shares if positive; once long, never trade again. -/
def BuyHoldStrategy.next (inp : StratInput) : Action :=
  if inp.position = 0 then
    let size : ℤ := (inp.cash / inp.close).floor
    if 0 < size then Action.submitBuy size.toNat else Action.hold
  else Action.hold

/-- Modelled from the spec (section 4.1): the SimpleMovingAverage
indicator of the backtrader library, which is not part of src/.  At bar
index i it is the arithmetic mean of the last period closes, and it is
undefined until the lookback window is full. -/
def smaAt (period : ℕ) (closes : List ℚ) (i : ℕ) : Option ℚ :=
  if 0 < period ∧ period ≤ i + 1 then
    some (((closes.drop (i + 1 - period)).take period).sum / (period : ℚ))
  else none

/-- Difference fast SMA minus slow SMA at a bar index, defined only when
both windows are full. -/
def diffAt (fast slow : ℕ) (closes : List ℚ) (i : ℕ) : Option ℚ :=
  match smaAt fast closes i, smaAt slow closes i with
  | some f, some s => some (f - s)
  | _, _ => none

/-- Modelled from the spec (section 4.1): the CrossOver indicator of the
backtrader library, which is not part of src/.  Its value is the sign of
the current difference when the current and previous differences have
opposite signs, else 0; it reports 0 (no signal) while either input is
still undefined. -/
def crossOverAt (fast slow : ℕ) (closes : List ℚ) : ℕ → ℚ
  | 0 => 0
  | i + 1 =>
    match diffAt fast slow closes i, diffAt fast slow closes (i + 1) with
    | some dPrev, some dCur =>
      if dPrev < 0 ∧ 0 < dCur then 1
      else if 0 < dPrev ∧ dCur < 0 then -1
      else 0
    | _, _ => 0

/-- The moving-average-cross strategy as a decision function over a bar
series: at bar i it applies MovingAverageCrossStrategy.next to the
crossover value of the fast and slow SMAs of the close series. -/
def MovingAverageCrossStrategy.decideOn (fast slow : ℕ) (closes : List ℚ) :
    ℕ → StratInput → Action :=
  fun i inp => MovingAverageCrossStrategy.next (crossOverAt fast slow closes i) inp

/-- Broker cash and position ledger (section 4.3).  Short selling is not
modelled, so the position size is a natural number. -/
structure Broker where
  cash : ℚ
  position : ℕ
deriving DecidableEq

/-- Modelled from the spec (section 4.3): the backtrader broker, which
is not part of src/.  A buy whose cost size * price * (1 + commission)
exceeds available cash goes to margin with no fill; a sell whose size
exceeds the held position is rejected with no fill; otherwise the order
completes at the given price, cash moves by the notional adjusted by
commission, and the position is updated. -/
def settleOrder (commission : ℚ) (b : Broker) (o : Order) (price : ℚ) :
    Broker × OrderStatus :=
  match o.side with
  | Side.buy =>
    let cost := (o.size : ℚ) * price * (1 + commission)
    if cost ≤ b.cash then
      ({ cash := b.cash - cost, position := b.position + o.size }, OrderStatus.completed)
    else (b, OrderStatus.margin)
  | Side.sell =>
    if o.size ≤ b.position then
      ({ cash := b.cash + (o.size : ℚ) * price * (1 - commission),
         position := b.position - o.size }, OrderStatus.completed)
    else (b, OrderStatus.rejected)

/-- Record of one order going through the broker: the bar on which the
strategy submitted it, the bar on which it reached a terminal status,
the order itself, the terminal status, and the price at which settlement
was evaluated (the fill price when completed). -/
structure Settlement where
  submitBar : ℕ
  settleBar : ℕ
  order : Order
  status : OrderStatus
  price : ℚ
deriving DecidableEq

/-- Full state of one backtest run: broker ledger, the pending-order
flag of the strategy instance, the settlement trace and the recorded
equity curve. -/
structure EngineState where
  broker : Broker
  pending : Option Order
  trace : List Settlement
  equity : List ℚ
deriving DecidableEq

/-- Initial engine state: all cash, flat, nothing pending, empty history. -/
def initState (cash0 : ℚ) : EngineState :=
  { broker := { cash := cash0, position := 0 }, pending := none, trace := [], equity := [] }

/-- Settle one submitted order against the broker at the close of bar i
and record the settlement; the pending flag clears because every status
is terminal. -/
def applyOrder (commission : ℚ) (i : ℕ) (b : Bar) (s : EngineState) (o : Order) :
    EngineState :=
  let res := settleOrder commission s.broker o b.close
  { broker := res.1, pending := none,
    trace := s.trace ++ [⟨i, i, o, res.2, b.close⟩],
    equity := s.equity ++ [res.1.cash + (res.1.position : ℚ) * b.close] }

/-- Dispatch on the action a strategy returned for bar i: hold records
equity only; a submission is settled on the same bar at its close. -/
def dispatchAction (commission : ℚ) (i : ℕ) (b : Bar) (s : EngineState) :
    Action → EngineState
  | Action.hold =>
    { s with pending := none,
             equity := s.equity ++ [s.broker.cash + (s.broker.position : ℚ) * b.close] }
  | Action.submitBuy sz => applyOrder commission i b s ⟨Side.buy, sz⟩
  | Action.submitSell sz => applyOrder commission i b s ⟨Side.sell, sz⟩

/-- Modelled from the spec (section 4.4): one iteration of the backtest
engine loop of the backtrader library, which is not part of src/.  If no
order is pending the strategy decides on the bar; a returned intent is
submitted to the broker for immediate same-bar settlement at the close
of that bar; an equity point is recorded after settlement.  Trade-ledger
bookkeeping, which no result below mentions, is not modelled. -/
def engineStep (decide : ℕ → StratInput → Action) (commission : ℚ) (i : ℕ) (b : Bar)
    (s : EngineState) : EngineState :=
  dispatchAction commission i b s
    (if s.pending.isSome then Action.hold
     else decide i { close := b.close, cash := s.broker.cash,
                     position := s.broker.position, pending := s.pending })

/-- State of the backtest run after processing the first n bars of the
series, one engine step per bar in order. -/
def runUpTo (decide : ℕ → StratInput → Action) (commission cash0 : ℚ)
    (bars : List Bar) : ℕ → EngineState
  | 0 => initState cash0
  | n + 1 =>
    match bars.get? n with
    | some b => engineStep decide commission n b (runUpTo decide commission cash0 bars n)
    | none => runUpTo decide commission cash0 bars n

/-- A whole backtest run: process every bar of the series. -/
def runEngine (decide : ℕ → StratInput → Action) (commission cash0 : ℚ)
    (bars : List Bar) : EngineState :=
  runUpTo decide commission cash0 bars bars.length

/-- Modelled from the spec (section 4.5): the return series, the
percentage change between consecutive equity points. -/
def returnSeries : List ℚ → List ℚ
  | x :: y :: rest => (y / x - 1) :: returnSeries (y :: rest)
  | _ => []

/-- Arithmetic mean of a list of rationals (0 on the empty list). -/
def listMean (l : List ℚ) : ℚ := l.sum / (l.length : ℚ)

/-- Population variance of a list of rationals.  The standard deviation
of the spec is its square root, so it is zero exactly when the variance
is zero. -/
def popVariance (l : List ℚ) : ℚ :=
  (l.map (fun x => (x - listMean l) ^ 2)).sum / (l.length : ℚ)

/-- Modelled from the spec (section 4.5): the SharpeRatio analyzer of
the backtrader library, which is not part of src/.  The Sharpe ratio is
mean over standard deviation of the return series, annualized; it is
absent (none) when the series has fewer than 2 points or zero standard
deviation.  Because the annualized value is an irrational scaling of
mean / sqrt(variance), the defined branch carries the (mean, variance)
pair that determines it; only presence or absence is examined below. -/
def sharpeAnalyzer (rets : List ℚ) : Option (ℚ × ℚ) :=
  if rets.length < 2 ∨ popVariance rets = 0 then none
  else some (listMean rets, popVariance rets)

/-- The metrics dictionary returned by
BacktestUtils.run_strategy_and_get_metrics (lines 155 to 161 of
src/quantics/strategy/backtest_utils.py).  The three analyzer-derived
entries can be absent, exactly as dict.get with default None makes them. -/
structure Metrics where
  sharpe : Option ℚ
  maxDrawdown : Option ℚ
  annualReturn : Option ℚ
  finalValue : ℚ
  totalReturn : ℚ
deriving DecidableEq

/-- A column name usable as the ranking metric of the optimizer. -/
inductive MetricKey where
  | sharpe
  | maxDrawdown
  | annualReturn
  | finalValue
  | totalReturn
deriving DecidableEq

/-- Read the column a MetricKey names from a Metrics record. -/
def MetricKey.get : MetricKey → Metrics → Option ℚ
  | MetricKey.sharpe, m => m.sharpe
  | MetricKey.maxDrawdown, m => m.maxDrawdown
  | MetricKey.annualReturn, m => m.annualReturn
  | MetricKey.finalValue, m => some m.finalValue
  | MetricKey.totalReturn, m => some m.totalReturn

/-- One row of the optimization result table: the parameter combination
merged with the metrics of its run. -/
structure OptRow where
  params : List (String × ℚ)
  metrics : Metrics
deriving DecidableEq

/-- One row of the strategy comparison table. -/
structure CompRow where
  name : String
  metrics : Metrics
deriving DecidableEq

/-- Descending comparison on optional metric values as pandas ranks
them: defined values ordered by value, absent values after every
defined value. -/
def keyGE : Option ℚ → Option ℚ → Prop
  | some a, some b => b ≤ a
  | some _, none => True
  | none, some _ => False
  | none, none => True

instance : ∀ a b : Option ℚ, Decidable (keyGE a b)
  | some _, some _ => inferInstanceAs (Decidable (_ ≤ _))
  | some _, none => inferInstanceAs (Decidable True)
  | none, some _ => inferInstanceAs (Decidable False)
  | none, none => inferInstanceAs (Decidable True)

/-- Numeric sort key of a row (0 for an absent value; only used on rows
whose value is present). -/
def kvOf {α : Type} (key : α → Option ℚ) (r : α) : ℚ := (key r).getD 0

/-- Ascending comparison on the numeric sort key. -/
def kvLe {α : Type} (key : α → Option ℚ) (a b : α) : Prop :=
  kvOf key a ≤ kvOf key b

instance {α : Type} (key : α → Option ℚ) : DecidableRel (kvLe key) :=
  fun a b => inferInstanceAs (Decidable (kvOf key a ≤ kvOf key b))

instance {α : Type} (key : α → Option ℚ) : IsTotal α (kvLe key) :=
  ⟨fun a b => le_total (kvOf key a) (kvOf key b)⟩

instance {α : Type} (key : α → Option ℚ) : IsTrans α (kvLe key) :=
  ⟨fun _ _ _ => le_trans⟩

/-- The pandas call sort_values(column, ascending=False) as the source
uses it: rows with an absent value in the column are split off and
appended last; the remaining rows are reversed, argsorted ascending and
the indexer reversed again, which yields the descending order.  The
stable ascending core models the numpy argsort kernel; tie order among
equal values, which the default quicksort kind leaves unspecified for
longer arrays, is not relied on by any statement below. -/
def sort_values_desc {α : Type} (key : α → Option ℚ) (rows : List α) : List α :=
  let nonNa := rows.filter fun r => (key r).isSome
  let na := rows.filter fun r => !(key r).isSome
  (List.insertionSort (kvLe key) nonNa.reverse).reverse ++ na

/-- The combination generator itertools.product as used at line 209 of
src/quantics/strategy/backtest_utils.py: Cartesian product of the value
lists, first list varying slowest. -/
def itertools.product : List (List ℚ) → List (List ℚ)
  | [] => [[]]
  | vs :: rest => vs.flatMap fun v => (itertools.product rest).map fun c => v :: c

/-- The body of the optimization loop of
BacktestUtils.optimize_parameters (lines 215 to 232), one recursive step
per combination in order: running one combination either raises, in
which case nothing is appended, or appends the row merging the
parameters with the metrics.  The append precedes the console prints of
the try block. -/
def optimizeRows (runMetrics : List (String × ℚ) → Except String Metrics)
    (names : List String) : List (List ℚ) → List OptRow
  | [] => []
  | combo :: rest =>
    match runMetrics (names.zip combo) with
    | Except.error _ => optimizeRows runMetrics names rest
    | Except.ok m => ⟨names.zip combo, m⟩ :: optimizeRows runMetrics names rest

/-- BacktestUtils.optimize_parameters (lines 191 to 242 of
src/quantics/strategy/backtest_utils.py): build the Cartesian product of
the parameter ranges, run each combination inside a try block that
appends a row on success and prints a failure message on any exception,
then sort the nonempty result table by the chosen metric descending.
The fallible runMetrics argument stands for run_strategy_and_get_metrics
applied to the strategy class and data feed. -/
def BacktestUtils.optimize_parameters
    (runMetrics : List (String × ℚ) → Except String Metrics)
    (param_ranges : List (String × List ℚ)) (metric : MetricKey) : List OptRow :=
  if 0 < (optimizeRows runMetrics (param_ranges.map Prod.fst)
      (itertools.product (param_ranges.map Prod.snd))).length then
    sort_values_desc (fun r => metric.get r.metrics)
      (optimizeRows runMetrics (param_ranges.map Prod.fst)
        (itertools.product (param_ranges.map Prod.snd)))
  else
    optimizeRows runMetrics (param_ranges.map Prod.fst)
      (itertools.product (param_ranges.map Prod.snd))

/-- True when the metric prints at lines 227 to 229 of the optimizer
loop raise: formatting None with a numeric format specifier raises a
TypeError, which the surrounding except block catches. -/
def formatRaises (m : Metrics) : Bool :=
  m.sharpe.isNone || m.annualReturn.isNone || m.maxDrawdown.isNone

/-- One step per combination of the console failure reports of the
optimizer loop: a combination is reported failed when its run raised, or
when its run succeeded but the metric formatting raised after the row
was already appended. -/
def failLogRows (runMetrics : List (String × ℚ) → Except String Metrics)
    (names : List String) : List (List ℚ) → List (List (String × ℚ))
  | [] => []
  | combo :: rest =>
    match runMetrics (names.zip combo) with
    | Except.error _ => names.zip combo :: failLogRows runMetrics names rest
    | Except.ok m =>
      if formatRaises m then names.zip combo :: failLogRows runMetrics names rest
      else failLogRows runMetrics names rest

/-- The combinations the except handler of the optimizer loop reports as
failed on the console over the whole sweep. -/
def BacktestUtils.optimize_fail_log
    (runMetrics : List (String × ℚ) → Except String Metrics)
    (param_ranges : List (String × List ℚ)) : List (List (String × ℚ)) :=
  failLogRows runMetrics (param_ranges.map Prod.fst)
    (itertools.product (param_ranges.map Prod.snd))

/-- Insertion into the results_dict of compare_strategies with Python
dict semantics: an existing key keeps its position and gets the new
value; a new key is appended. -/
def dict_update (rows : List CompRow) (name : String) (m : Metrics) : List CompRow :=
  if rows.any fun r => r.name = name then
    rows.map fun r => if r.name = name then ⟨name, m⟩ else r
  else rows ++ [⟨name, m⟩]

/-- BacktestUtils.compare_strategies (lines 165 to 189 of
src/quantics/strategy/backtest_utils.py): run every configuration,
collect the metrics into a dict keyed by strategy name, and sort the
table by the Annual Return column descending.  The function takes no
ranking-metric argument; the column is fixed in the source. -/
def BacktestUtils.compare_strategies {σ : Type} (runMetrics : σ → Metrics)
    (strategy_configs : List (String × σ)) : List CompRow :=
  sort_values_desc (fun r => r.metrics.annualReturn)
    (strategy_configs.foldl (fun acc cfg => dict_update acc cfg.1 (runMetrics cfg.2)) [])

/-! Concrete inputs used to instantiate the universally quantified
results below on runnable data. -/

/-- A metrics record with every analyzer value present. -/
def demoMetrics : Metrics := ⟨some 1, some 2, some 3, 4, 5⟩

/-- A metrics record whose Sharpe entry is absent, as the analyzer
returns it on a degenerate return series. -/
def absentSharpeMetrics : Metrics := ⟨none, some 2, some 3, 4, 5⟩

/-- The parameter sweep of the section 8 scenario: fast_period in
{10, 20} and slow_period in {40, 50}. -/
def sweepRanges : List (String × List ℚ) :=
  [("fast_period", [10, 20]), ("slow_period", [40, 50])]

/-- A run function that raises on exactly one of the four combinations
of sweepRanges and succeeds on the rest. -/
def failOneRun : List (String × ℚ) → Except String Metrics := fun params =>
  if params = [("fast_period", 20), ("slow_period", 50)] then Except.error "ValueError"
  else Except.ok demoMetrics

/-- A one-parameter sweep range. -/
def singleRange : List (String × List ℚ) := [("fast_period", [10])]

/-- A run function that completes successfully but reports an absent
Sharpe value. -/
def absentSharpeRun : List (String × ℚ) → Except String Metrics :=
  fun _ => Except.ok absentSharpeMetrics

/-- A single flat bar series. -/
def oneBar : List Bar := [⟨0, 10, 10, 10, 10, 0⟩]

/-- A decision function that always submits a one-share buy. -/
def alwaysBuyOne : ℕ → StratInput → Action := fun _ _ => Action.submitBuy 1

/-- The settlement the engine records when alwaysBuyOne runs on oneBar
with cash 100 and zero commission. -/
def buySettle : Settlement := ⟨0, 0, ⟨Side.buy, 1⟩, OrderStatus.completed, 10⟩

/-- A decision function that never trades. -/
def alwaysHold : ℕ → StratInput → Action := fun _ _ => Action.hold

/-- A strategy input with an order still pending. -/
def pendingInput : StratInput := ⟨100, 1000, 0, some ⟨Side.buy, 1⟩⟩

/-- A flat strategy input with cash for ten shares. -/
def flatInput : StratInput := ⟨10, 100, 0, none⟩

/-- A long strategy input holding seven shares. -/
def longInput : StratInput := ⟨10, 0, 7, none⟩

/-- A flat strategy input whose cash cannot buy one share. -/
def poorInput : StratInput := ⟨10, 5, 0, none⟩

/-- A single demonstration bar. -/
def demoBar : Bar := ⟨0, 10, 10, 10, 10, 0⟩

/-- A fresh engine state with cash 100. -/
def demoState : EngineState := initState 100

/-- A four-bar series on which the fast SMA of period 2 crosses above
the slow SMA of period 3 at bar index 3: closes 10, 8, 6, 100. -/
def crossBars : List Bar :=
  [⟨0, 10, 10, 10, 10, 0⟩, ⟨1, 8, 8, 8, 8, 0⟩, ⟨2, 6, 6, 6, 6, 0⟩,
   ⟨3, 100, 100, 100, 100, 0⟩]

/-- The settlement recorded when the moving-average strategy with
periods 2 and 3 runs on crossBars with cash 100 and zero commission. -/
def crossSettle : Settlement := ⟨3, 3, ⟨Side.buy, 1⟩, OrderStatus.completed, 100⟩

/-- A three-point constant equity curve, whose return series is [0, 0]. -/
def flatEquity : List ℚ := [100, 100, 100]

/-! Helper lemmas about the engine loop. -/

/-- Dispatching any action leaves the pending-order flag clear: every
broker status is terminal, so nothing survives the bar. -/
theorem dispatchAction_pending (commission : ℚ) (i : ℕ) (b : Bar) (s : EngineState)
    (a : Action) : (dispatchAction commission i b s a).pending = none := by
  cases a <;> simp [dispatchAction, applyOrder]

/-- One engine step leaves the pending-order flag clear. -/
theorem engineStep_pending (decide : ℕ → StratInput → Action) (commission : ℚ)
    (i : ℕ) (b : Bar) (s : EngineState) :
    (engineStep decide commission i b s).pending = none :=
  dispatchAction_pending ..

/-- The pending-order flag is clear after any number of engine steps. -/
theorem runUpTo_pending (decide : ℕ → StratInput → Action) (commission cash0 : ℚ)
    (bars : List Bar) : ∀ n, (runUpTo decide commission cash0 bars n).pending = none := by
  intro n
  induction n with
  | zero => rfl
  | succ n ih =>
    rw [runUpTo]
    cases h : bars.get? n with
    | none => exact ih
    | some b => exact engineStep_pending ..

/-- Dispatching one action grows the settlement trace by at most one
record. -/
theorem dispatchAction_trace_le (commission : ℚ) (i : ℕ) (b : Bar) (s : EngineState)
    (a : Action) :
    (dispatchAction commission i b s a).trace.length ≤ s.trace.length + 1 := by
  cases a <;> simp [dispatchAction, applyOrder]

/-- One more engine step grows the settlement trace by at most one
record. -/
theorem runUpTo_trace_le (decide : ℕ → StratInput → Action) (commission cash0 : ℚ)
    (bars : List Bar) (n : ℕ) :
    (runUpTo decide commission cash0 bars (n + 1)).trace.length ≤
      (runUpTo decide commission cash0 bars n).trace.length + 1 := by
  rw [runUpTo]
  cases h : bars.get? n with
  | none => exact Nat.le_succ _
  | some b => exact dispatchAction_trace_le ..

/-- Every settlement in a run trace was produced on an existing bar of
the series: it settled on its own submission bar, at the close of that
bar, and it came from a decision the strategy took with a clear
pending-order flag. -/
theorem runUpTo_trace_spec (decide : ℕ → StratInput → Action) (commission cash0 : ℚ)
    (bars : List Bar) :
    ∀ n s, s ∈ (runUpTo decide commission cash0 bars n).trace →
      ∃ b c p, bars.get? s.submitBar = some b ∧ s.settleBar = s.submitBar ∧
        s.price = b.close ∧ decide s.submitBar ⟨b.close, c, p, none⟩ ≠ Action.hold := by
  intro n
  induction n with
  | zero => intro s hs; exact absurd hs (List.not_mem_nil s)
  | succ n ih =>
    intro s hs
    rw [runUpTo] at hs
    cases h : bars.get? n with
    | none => rw [h] at hs; exact ih s hs
    | some b =>
      rw [h] at hs
      unfold engineStep at hs
      rw [runUpTo_pending] at hs
      simp only [Option.isSome_none, Bool.false_eq_true, if_false] at hs
      cases hact : decide n ⟨b.close, (runUpTo decide commission cash0 bars n).broker.cash,
          (runUpTo decide commission cash0 bars n).broker.position, none⟩ with
      | hold =>
        rw [hact] at hs
        simp only [dispatchAction] at hs
        exact ih s hs
      | submitBuy sz =>
        rw [hact] at hs
        simp only [dispatchAction, applyOrder, List.mem_append,
          List.mem_singleton] at hs
        rcases hs with hs | hs
        · exact ih s hs
        · subst hs
          exact ⟨b, _, _, h, rfl, rfl, by rw [hact]; intro hc; exact absurd hc (by simp)⟩
      | submitSell sz =>
        rw [hact] at hs
        simp only [dispatchAction, applyOrder, List.mem_append,
          List.mem_singleton] at hs
        rcases hs with hs | hs
        · exact ih s hs
        · subst hs
          exact ⟨b, _, _, h, rfl, rfl, by rw [hact]; intro hc; exact absurd hc (by simp)⟩

/-- A simple moving average value exists only once its lookback window
is full. -/
theorem smaAt_eq_some_bound {period : ℕ} {closes : List ℚ} {i : ℕ} {v : ℚ}
    (h : smaAt period closes i = some v) : period ≤ i + 1 := by
  unfold smaAt at h
  by_cases hc : 0 < period ∧ period ≤ i + 1
  · exact hc.2
  · rw [if_neg hc] at h
    cases h

/-- The SMA difference exists only once both lookback windows are full. -/
theorem diffAt_eq_some_bound {fast slow : ℕ} {closes : List ℚ} {i : ℕ} {d : ℚ}
    (h : diffAt fast slow closes i = some d) : fast ≤ i + 1 ∧ slow ≤ i + 1 := by
  unfold diffAt at h
  cases hf : smaAt fast closes i with
  | none => rw [hf] at h; simp at h
  | some f =>
    cases hsl : smaAt slow closes i with
    | none => rw [hf, hsl] at h; simp at h
    | some sl => exact ⟨smaAt_eq_some_bound hf, smaAt_eq_some_bound hsl⟩

/-- A nonzero crossover value requires the SMA difference of the
previous bar, hence both windows full by the previous bar already. -/
theorem crossOverAt_ne_zero_bound {fast slow : ℕ} {closes : List ℚ} {i : ℕ}
    (h : crossOverAt fast slow closes i ≠ 0) : fast ≤ i ∧ slow ≤ i := by
  cases i with
  | zero => exact absurd rfl h
  | succ j =>
    rw [crossOverAt] at h
    cases hp : diffAt fast slow closes j with
    | none => rw [hp] at h; exact absurd rfl h
    | some dPrev =>
      cases hc : diffAt fast slow closes (j + 1) with
      | none => rw [hp, hc] at h; exact absurd rfl h
      | some dCur => exact diffAt_eq_some_bound hp

/-- With a zero crossover value the moving-average strategy holds. -/
theorem maNext_zero_hold (inp : StratInput) :
    MovingAverageCrossStrategy.next 0 inp = Action.hold := by
  simp [MovingAverageCrossStrategy.next]

/-- The floor of cash over price is zero when the cash is nonnegative
but below the price. -/
theorem floor_div_eq_zero {cash close : ℚ} (h0 : 0 ≤ cash) (h1 : 0 < close)
    (h2 : cash < close) : (cash / close).floor = 0 := by
  have hdiv0 : (0 : ℚ) ≤ cash / close := div_nonneg h0 (le_of_lt h1)
  have hdiv1 : cash / close < 1 := (div_lt_one h1).mpr h2
  have hle : (0 : ℤ) ≤ (cash / close).floor := Rat.le_floor.mpr (by exact_mod_cast hdiv0)
  have hlt : ¬ (1 : ℤ) ≤ (cash / close).floor := by
    intro hc
    have := Rat.le_floor.mp hc
    push_cast at this
    exact absurd hdiv1 (not_lt.mpr this)
  omega

/-! Helper lemmas about sorting and the optimizer loop. -/

/-- A relation that holds between any two elements satisfying a
property holds pairwise on any list of such elements. -/
theorem pairwise_of_forall_mem {α : Type} {P : α → Prop} {R : α → α → Prop}
    (hR : ∀ a b, P a → P b → R a b) :
    ∀ l : List α, (∀ a ∈ l, P a) → l.Pairwise R
  | [], _ => List.Pairwise.nil
  | a :: l, h => by
    constructor
    · exact fun b hb => hR a b (h a (List.mem_cons_self a l)) (h b (List.mem_cons_of_mem a hb))
    · exact pairwise_of_forall_mem hR l fun b hb => h b (List.mem_cons_of_mem a hb)

/-- An option whose isSome flag is false is none. -/
theorem isSome_false_eq_none {o : Option ℚ} (h : o.isSome = false) : o = none := by
  cases o with
  | none => rfl
  | some x => simp at h

/-- The pandas descending sort is a permutation of its input rows. -/
theorem sort_values_desc_perm {α : Type} (key : α → Option ℚ) (rows : List α) :
    (sort_values_desc key rows).Perm rows := by
  unfold sort_values_desc
  have h1 : (List.insertionSort (kvLe key)
      (rows.filter fun r => (key r).isSome).reverse).reverse.Perm
      (rows.filter fun r => (key r).isSome) :=
    (List.reverse_perm _).trans ((List.perm_insertionSort _ _).trans (List.reverse_perm _))
  exact (h1.append (List.Perm.refl _)).trans (List.filter_append_perm _ rows)

/-- The pandas descending sort output is pairwise ordered: defined
metric values descend, and rows with an absent value come last. -/
theorem sort_values_desc_sorted {α : Type} (key : α → Option ℚ) (rows : List α) :
    (sort_values_desc key rows).Pairwise fun a b => keyGE (key a) (key b) := by
  unfold sort_values_desc
  rw [List.pairwise_append]
  have hmem : ∀ a, a ∈ (List.insertionSort (kvLe key)
      (rows.filter fun r => (key r).isSome).reverse).reverse →
      (key a).isSome = true := by
    intro a ha
    rw [List.mem_reverse] at ha
    have := (List.perm_insertionSort (kvLe key) _).mem_iff.mp ha
    rw [List.mem_reverse] at this
    exact (List.mem_filter.mp this).2
  refine ⟨?_, ?_, ?_⟩
  · have hsorted : (List.insertionSort (kvLe key)
        (rows.filter fun r => (key r).isSome).reverse).Pairwise (kvLe key) :=
      List.sorted_insertionSort _ _
    have hrev := List.pairwise_reverse.mpr hsorted
    refine hrev.imp_of_mem ?_
    intro a b ha hb hab
    obtain ⟨x, hx⟩ := Option.isSome_iff_exists.mp (hmem a ha)
    obtain ⟨y, hy⟩ := Option.isSome_iff_exists.mp (hmem b hb)
    have : kvOf key b ≤ kvOf key a := hab
    rw [kvOf, kvOf, hx, hy] at this
    rw [hx, hy]
    exact this
  · refine pairwise_of_forall_mem (P := fun r => (key r).isSome = false) ?_ _ ?_
    · intro a b ha hb
      rw [isSome_false_eq_none ha, isSome_false_eq_none hb]
      trivial
    · intro a ha
      have := (List.mem_filter.mp ha).2
      simpa using this
  · intro a ha b hb
    obtain ⟨x, hx⟩ := Option.isSome_iff_exists.mp (hmem a ha)
    have hbn : (key b).isSome = false := by
      have := (List.mem_filter.mp hb).2
      simpa using this
    rw [hx, isSome_false_eq_none hbn]
    trivial

/-- The rows collected by the optimizer loop are exactly the rows of the
successful combinations, in sweep order. -/
theorem optimizeRows_eq (runM : List (String × ℚ) → Except String Metrics)
    (names : List String) :
    ∀ combos : List (List ℚ),
      optimizeRows runM names combos = combos.filterMap fun combo =>
        match runM (names.zip combo) with
        | Except.ok m => some ⟨names.zip combo, m⟩
        | Except.error _ => none := by
  intro combos
  induction combos with
  | nil => rfl
  | cons combo rest ih =>
    rw [optimizeRows, List.filterMap_cons]
    cases h : runM (names.zip combo) with
    | error e => simp only [h, ih]
    | ok m => simp only [h, ih]

/-- The combinations the optimizer loop reports as failed are exactly
those whose run raised or whose metrics formatting raised. -/
theorem failLogRows_eq (runM : List (String × ℚ) → Except String Metrics)
    (names : List String) :
    ∀ combos : List (List ℚ),
      failLogRows runM names combos = combos.filterMap fun combo =>
        match runM (names.zip combo) with
        | Except.error _ => some (names.zip combo)
        | Except.ok m => if formatRaises m then some (names.zip combo) else none := by
  intro combos
  induction combos with
  | nil => rfl
  | cons combo rest ih =>
    rw [failLogRows, List.filterMap_cons]
    cases h : runM (names.zip combo) with
    | error e => simp only [h, ih]
    | ok m =>
      cases hf : formatRaises m with
      | false => simp only [h, hf, ih, Bool.false_eq_true, if_false]
      | true => simp only [h, hf, ih, if_true]

/-! Results for the claims. -/

/-- C1: for every run of the backtest engine, when a strategy submits a
Buy or Sell order on bar i, the order settles on that same bar i and the
fill price equals the close price of bar i.  The statement quantifies
over every decision function, so it covers every strategy variant. -/
theorem same_bar_settlement_at_close
    (decide : ℕ → StratInput → Action) (commission cash0 : ℚ) (bars : List Bar)
    (n : ℕ) (s : Settlement)
    (hs : s ∈ (runUpTo decide commission cash0 bars n).trace) :
    s.settleBar = s.submitBar ∧
    ∃ b, bars.get? s.submitBar = some b ∧ s.price = b.close := by
  obtain ⟨b, c, p, hb, hsettle, hprice, -⟩ :=
    runUpTo_trace_spec decide commission cash0 bars n s hs
  exact ⟨hsettle, b, hb, hprice⟩

/-- Witness for C1: a concrete one-bar run whose single settlement is
checked against the theorem. -/
theorem same_bar_settlement_at_close_witness :
    buySettle ∈ (runUpTo alwaysBuyOne 0 100 oneBar 1).trace ∧
    (buySettle.settleBar = buySettle.submitBar ∧
     ∃ b, oneBar.get? buySettle.submitBar = some b ∧ buySettle.price = b.close) :=
  ⟨by norm_num [runUpTo, engineStep, dispatchAction, applyOrder, settleOrder,
      initState, alwaysBuyOne, oneBar, buySettle],
   same_bar_settlement_at_close alwaysBuyOne 0 100 oneBar 1 buySettle
     (by norm_num [runUpTo, engineStep, dispatchAction, applyOrder, settleOrder,
       initState, alwaysBuyOne, oneBar, buySettle])⟩

/-- C2: no strategy variant ever issues a new order while an order from
its previous intent is still pending.  In every run the pending-order
flag is clear after each bar (because settlement is same-bar and every
status is terminal) and at most one settlement is added per bar, so at
most one order is ever outstanding; and the four variants that carry the
pending-order guard in their next method return hold whenever the flag
is set.  The buy-and-hold variant has no such guard in the source, but
the run-level invariants show it is never invoked with a pending order. -/
theorem no_new_order_while_pending
    (decide : ℕ → StratInput → Action) (commission cash0 : ℚ) (bars : List Bar)
    (n : ℕ) (inp : StratInput) (cr lo hi rv top bot : ℚ)
    (hp : inp.pending.isSome = true) :
    (runUpTo decide commission cash0 bars n).pending = none ∧
    (runUpTo decide commission cash0 bars (n + 1)).trace.length ≤
      (runUpTo decide commission cash0 bars n).trace.length + 1 ∧
    MovingAverageCrossStrategy.next cr inp = Action.hold ∧
    RSIStrategy.next lo hi rv inp = Action.hold ∧
    BollingerBandsStrategy.next top bot inp = Action.hold ∧
    MACDStrategy.next cr inp = Action.hold := by
  refine ⟨runUpTo_pending .., runUpTo_trace_le .., ?_, ?_, ?_, ?_⟩ <;>
    simp [MovingAverageCrossStrategy.next, RSIStrategy.next,
      BollingerBandsStrategy.next, MACDStrategy.next, hp]

/-- Witness for C2 at a concrete run and a concrete pending input. -/
theorem no_new_order_while_pending_witness :
    (runUpTo alwaysHold 0 100 oneBar 0).pending = none ∧
    (runUpTo alwaysHold 0 100 oneBar 1).trace.length ≤
      (runUpTo alwaysHold 0 100 oneBar 0).trace.length + 1 ∧
    MovingAverageCrossStrategy.next 1 pendingInput = Action.hold ∧
    RSIStrategy.next 30 70 10 pendingInput = Action.hold ∧
    BollingerBandsStrategy.next 20 5 pendingInput = Action.hold ∧
    MACDStrategy.next 1 pendingInput = Action.hold :=
  no_new_order_while_pending alwaysHold 0 100 oneBar 0 pendingInput 1 30 70 10 20 5 rfl

/-- C3: for every strategy variant, a buy trigger fired while flat
submits exactly floor(available cash / close) whole shares, and a sell
trigger fired while long submits exactly the full current position. -/
theorem sizing_rule
    (inpF inpL : StratInput) (crB crS lo hi rvB rvS topF botF topL botL : ℚ)
    (hFp : inpF.pending = none) (hFpos : inpF.position = 0)
    (hFsz : 0 < (inpF.cash / inpF.close).floor)
    (hcrB : 0 < crB) (hrvB : rvB < lo) (hbb : inpF.close < botF)
    (hLp : inpL.pending = none) (hLpos : inpL.position ≠ 0)
    (hcrS : crS < 0) (hrvS : hi < rvS) (hts : topL < inpL.close) :
    (MovingAverageCrossStrategy.next crB inpF =
        Action.submitBuy (inpF.cash / inpF.close).floor.toNat ∧
     RSIStrategy.next lo hi rvB inpF =
        Action.submitBuy (inpF.cash / inpF.close).floor.toNat ∧
     BollingerBandsStrategy.next topF botF inpF =
        Action.submitBuy (inpF.cash / inpF.close).floor.toNat ∧
     MACDStrategy.next crB inpF =
        Action.submitBuy (inpF.cash / inpF.close).floor.toNat ∧
     BuyHoldStrategy.next inpF =
        Action.submitBuy (inpF.cash / inpF.close).floor.toNat) ∧
    (MovingAverageCrossStrategy.next crS inpL = Action.submitSell inpL.position ∧
     RSIStrategy.next lo hi rvS inpL = Action.submitSell inpL.position ∧
     BollingerBandsStrategy.next topL botL inpL = Action.submitSell inpL.position ∧
     MACDStrategy.next crS inpL = Action.submitSell inpL.position) := by
  refine ⟨⟨?_, ?_, ?_, ?_, ?_⟩, ?_, ?_, ?_, ?_⟩ <;>
    simp [MovingAverageCrossStrategy.next, RSIStrategy.next,
      BollingerBandsStrategy.next, MACDStrategy.next, BuyHoldStrategy.next,
      hFp, hFpos, hFsz, hcrB, hrvB, hbb, hLp, hLpos, hcrS, hrvS, hts]

/-- Witness for C3 at a concrete flat input with cash for ten shares and
a concrete long input holding seven shares. -/
theorem sizing_rule_witness :
    (MovingAverageCrossStrategy.next 1 flatInput =
        Action.submitBuy (flatInput.cash / flatInput.close).floor.toNat ∧
     RSIStrategy.next 30 70 20 flatInput =
        Action.submitBuy (flatInput.cash / flatInput.close).floor.toNat ∧
     BollingerBandsStrategy.next 15 12 flatInput =
        Action.submitBuy (flatInput.cash / flatInput.close).floor.toNat ∧
     MACDStrategy.next 1 flatInput =
        Action.submitBuy (flatInput.cash / flatInput.close).floor.toNat ∧
     BuyHoldStrategy.next flatInput =
        Action.submitBuy (flatInput.cash / flatInput.close).floor.toNat) ∧
    (MovingAverageCrossStrategy.next (-1) longInput = Action.submitSell longInput.position ∧
     RSIStrategy.next 30 70 80 longInput = Action.submitSell longInput.position ∧
     BollingerBandsStrategy.next 5 1 longInput = Action.submitSell longInput.position ∧
     MACDStrategy.next (-1) longInput = Action.submitSell longInput.position) :=
  sizing_rule flatInput longInput 1 (-1) 30 70 20 80 15 12 5 1
    rfl rfl (by norm_num [flatInput, Rat.floor]) (by norm_num) (by norm_num)
    (by norm_num [flatInput]) rfl (by norm_num [longInput]) (by norm_num)
    (by norm_num) (by norm_num [longInput])

/-- C6: the Sharpe value the analyzer reports for an equity curve whose
return series has fewer than 2 points or zero standard deviation (zero
variance) is absent, not zero. -/
theorem sharpe_absent_when_degenerate (equity : List ℚ)
    (h : (returnSeries equity).length < 2 ∨ popVariance (returnSeries equity) = 0) :
    sharpeAnalyzer (returnSeries equity) = none := by
  unfold sharpeAnalyzer
  rw [if_pos h]

/-- Witness for C6 at a three-point constant equity curve: the return
series [0, 0] has zero variance and the Sharpe value is absent. -/
theorem sharpe_absent_when_degenerate_witness :
    ((returnSeries flatEquity).length < 2 ∨ popVariance (returnSeries flatEquity) = 0) ∧
    sharpeAnalyzer (returnSeries flatEquity) = none :=
  ⟨Or.inr (by norm_num [flatEquity, returnSeries, popVariance, listMean]),
   sharpe_absent_when_degenerate flatEquity
     (Or.inr (by norm_num [flatEquity, returnSeries, popVariance, listMean]))⟩

/-- C7: a strategy issues no order before the lookback windows of its
indicators are full: every settlement of a moving-average-cross run lies
at a bar index at least the fast and slow periods, and in particular
with fast 20 and slow 50 no order appears before bar index 49. -/
theorem warmup_no_orders
    (fast slow : ℕ) (commission cash0 : ℚ) (bars : List Bar) (n : ℕ) (s : Settlement)
    (hs : s ∈ (runUpTo (MovingAverageCrossStrategy.decideOn fast slow (bars.map Bar.close))
        commission cash0 bars n).trace) :
    (fast ≤ s.submitBar ∧ slow ≤ s.submitBar) ∧
    (fast = 20 → slow = 50 → 49 ≤ s.submitBar) := by
  obtain ⟨b, c, p, -, -, -, hne⟩ :=
    runUpTo_trace_spec (MovingAverageCrossStrategy.decideOn fast slow (bars.map Bar.close))
      commission cash0 bars n s hs
  have hcr : crossOverAt fast slow (bars.map Bar.close) s.submitBar ≠ 0 := by
    intro h0
    exact hne (by simp [MovingAverageCrossStrategy.decideOn, h0, maNext_zero_hold])
  obtain ⟨h1, h2⟩ := crossOverAt_ne_zero_bound hcr
  exact ⟨⟨h1, h2⟩, fun e1 e2 => by omega⟩

/-- Witness for C7: a four-bar run of the moving-average strategy with
periods 2 and 3 whose single settlement sits at bar index 3, checked
against the theorem. -/
theorem warmup_no_orders_witness :
    crossSettle ∈ (runUpTo (MovingAverageCrossStrategy.decideOn 2 3 (crossBars.map Bar.close))
        0 100 crossBars 4).trace ∧
    ((2 ≤ crossSettle.submitBar ∧ 3 ≤ crossSettle.submitBar) ∧
     (2 = 20 → 3 = 50 → 49 ≤ crossSettle.submitBar)) :=
  ⟨by norm_num [runUpTo, engineStep, dispatchAction, applyOrder, settleOrder,
      initState, MovingAverageCrossStrategy.decideOn, MovingAverageCrossStrategy.next,
      crossOverAt, diffAt, smaAt, crossBars, crossSettle, Rat.floor, Int.toNat],
   warmup_no_orders 2 3 0 100 crossBars 4 crossSettle
     (by norm_num [runUpTo, engineStep, dispatchAction, applyOrder, settleOrder,
       initState, MovingAverageCrossStrategy.decideOn, MovingAverageCrossStrategy.next,
       crossOverAt, diffAt, smaAt, crossBars, crossSettle, Rat.floor, Int.toNat])⟩

/-- C8: when a buy trigger fires while flat but the available cash is
below the close price, every strategy variant issues no order at all and
the engine step leaves the broker ledger and the settlement trace
unchanged. -/
theorem insufficient_cash_no_order
    (inp : StratInput) (cr lo hi rv top bot : ℚ)
    (decide : ℕ → StratInput → Action) (commission : ℚ) (i : ℕ) (b : Bar)
    (st : EngineState)
    (hp : inp.pending = none) (hpos : inp.position = 0) (hclose : 0 < inp.close)
    (hcash0 : 0 ≤ inp.cash) (hcash : inp.cash < inp.close)
    (hstp : st.pending = none)
    (hdec : decide i ⟨b.close, st.broker.cash, st.broker.position, none⟩ = Action.hold) :
    (MovingAverageCrossStrategy.next cr inp = Action.hold ∧
     RSIStrategy.next lo hi rv inp = Action.hold ∧
     BollingerBandsStrategy.next top bot inp = Action.hold ∧
     MACDStrategy.next cr inp = Action.hold ∧
     BuyHoldStrategy.next inp = Action.hold) ∧
    (engineStep decide commission i b st).broker = st.broker ∧
    (engineStep decide commission i b st).trace = st.trace := by
  have hz : (inp.cash / inp.close).floor = 0 := floor_div_eq_zero hcash0 hclose hcash
  constructor
  · refine ⟨?_, ?_, ?_, ?_, ?_⟩ <;>
      simp [MovingAverageCrossStrategy.next, RSIStrategy.next,
        BollingerBandsStrategy.next, MACDStrategy.next, BuyHoldStrategy.next,
        hp, hpos, hz]
  · unfold engineStep
    rw [hstp]
    simp only [Option.isSome_none, Bool.false_eq_true, if_false]
    rw [hdec]
    simp [dispatchAction]

/-- Witness for C8: a flat input whose cash 5 cannot buy one share at
close 10, together with a concrete engine step that holds. -/
theorem insufficient_cash_no_order_witness :
    (MovingAverageCrossStrategy.next 1 poorInput = Action.hold ∧
     RSIStrategy.next 30 70 20 poorInput = Action.hold ∧
     BollingerBandsStrategy.next 15 12 poorInput = Action.hold ∧
     MACDStrategy.next 1 poorInput = Action.hold ∧
     BuyHoldStrategy.next poorInput = Action.hold) ∧
    (engineStep alwaysHold 0 0 demoBar demoState).broker = demoState.broker ∧
    (engineStep alwaysHold 0 0 demoBar demoState).trace = demoState.trace :=
  insufficient_cash_no_order poorInput 1 30 70 20 15 12 alwaysHold 0 0 demoBar demoState
    rfl rfl (by norm_num [poorInput]) (by norm_num [poorInput])
    (by norm_num [poorInput]) rfl rfl

/-- C4 counterexample: the claim says the optimizer yields one row per
attempted combination with failed runs recorded under an error marker.
On the sweep fast_period in {10, 20}, slow_period in {40, 50} with the
combination (20, 50) raising, the Cartesian product has 4 combinations
but the result table has only 3 rows: the failed combination is not
recorded at all. -/
theorem optimize_drops_failed_combination :
    (BacktestUtils.optimize_parameters failOneRun sweepRanges MetricKey.sharpe).length = 3 ∧
    (itertools.product (sweepRanges.map Prod.snd)).length = 4 := by
  have hp : (BacktestUtils.optimize_parameters failOneRun sweepRanges MetricKey.sharpe).Perm
      (optimizeRows failOneRun (sweepRanges.map Prod.fst)
        (itertools.product (sweepRanges.map Prod.snd))) := by
    unfold BacktestUtils.optimize_parameters
    split
    · exact sort_values_desc_perm _ _
    · exact List.Perm.refl _
  constructor
  · rw [hp.length_eq]
    norm_num [optimizeRows, itertools.product, sweepRanges, failOneRun, demoMetrics]
  · norm_num [itertools.product, sweepRanges]

/-- C4 amended: the optimizer produces one row per combination of the
Cartesian product whose run succeeds, in sweep order up to the final
ranking permutation; a combination whose run raises an error is skipped
entirely (no row, hence excluded from ranking) and does not abort the
remaining combinations. -/
theorem optimize_one_row_per_successful_combination
    (runM : List (String × ℚ) → Except String Metrics)
    (param_ranges : List (String × List ℚ)) (metric : MetricKey) :
    (BacktestUtils.optimize_parameters runM param_ranges metric).Perm
      ((itertools.product (param_ranges.map Prod.snd)).filterMap fun combo =>
        match runM ((param_ranges.map Prod.fst).zip combo) with
        | Except.ok m => some ⟨(param_ranges.map Prod.fst).zip combo, m⟩
        | Except.error _ => none) := by
  unfold BacktestUtils.optimize_parameters
  rw [optimizeRows_eq]
  split
  · exact sort_values_desc_perm _ _
  · exact List.Perm.refl _

/-- C9 counterexample: the claim says a combination whose run completes
with an absent Sharpe value is omitted from the returned results.  On a
one-combination sweep whose run succeeds with an absent Sharpe value,
the combination is reported failed on the console, yet the returned
table still has its row: the append precedes the raising format call. -/
theorem optimize_keeps_row_with_absent_sharpe :
    (BacktestUtils.optimize_parameters absentSharpeRun singleRange MetricKey.finalValue).length
        = 1 ∧
    BacktestUtils.optimize_fail_log absentSharpeRun singleRange =
      [[("fast_period", 10)]] := by
  constructor
  · have hp : (BacktestUtils.optimize_parameters absentSharpeRun singleRange
        MetricKey.finalValue).Perm
        (optimizeRows absentSharpeRun (singleRange.map Prod.fst)
          (itertools.product (singleRange.map Prod.snd))) := by
      unfold BacktestUtils.optimize_parameters
      split
      · exact sort_values_desc_perm _ _
      · exact List.Perm.refl _
    rw [hp.length_eq]
    norm_num [optimizeRows, itertools.product, singleRange, absentSharpeRun]
  · norm_num [BacktestUtils.optimize_fail_log, failLogRows, itertools.product,
      singleRange, absentSharpeRun, absentSharpeMetrics, formatRaises]

/-- C9 amended: a combination whose backtest completes but yields an
absent Sharpe value is logged as a failed run (formatting None raises
inside the guarded block), but because the row was appended before the
raising print, it is included in the returned results, together with its
other metrics. -/
theorem optimize_logs_failure_but_keeps_row
    (runM : List (String × ℚ) → Except String Metrics)
    (param_ranges : List (String × List ℚ)) (metric : MetricKey)
    (combo : List ℚ) (m : Metrics)
    (hc : combo ∈ itertools.product (param_ranges.map Prod.snd))
    (hok : runM ((param_ranges.map Prod.fst).zip combo) = Except.ok m)
    (hsh : m.sharpe = none) :
    ((param_ranges.map Prod.fst).zip combo) ∈
      BacktestUtils.optimize_fail_log runM param_ranges ∧
    (⟨(param_ranges.map Prod.fst).zip combo, m⟩ : OptRow) ∈
      BacktestUtils.optimize_parameters runM param_ranges metric := by
  constructor
  · unfold BacktestUtils.optimize_fail_log
    rw [failLogRows_eq]
    exact List.mem_filterMap.mpr ⟨combo, hc, by rw [hok]; simp [formatRaises, hsh]⟩
  · have hrow : (⟨(param_ranges.map Prod.fst).zip combo, m⟩ : OptRow) ∈
        optimizeRows runM (param_ranges.map Prod.fst)
          (itertools.product (param_ranges.map Prod.snd)) := by
      rw [optimizeRows_eq]
      exact List.mem_filterMap.mpr ⟨combo, hc, by rw [hok]⟩
    unfold BacktestUtils.optimize_parameters
    split
    · exact (sort_values_desc_perm _ _).mem_iff.mpr hrow
    · exact hrow

/-- Witness for the amended C9 statement on a concrete one-combination
sweep with an absent Sharpe value. -/
theorem optimize_logs_failure_but_keeps_row_witness :
    ((singleRange.map Prod.fst).zip [(10 : ℚ)]) ∈
      BacktestUtils.optimize_fail_log absentSharpeRun singleRange ∧
    (⟨(singleRange.map Prod.fst).zip [(10 : ℚ)], absentSharpeMetrics⟩ : OptRow) ∈
      BacktestUtils.optimize_parameters absentSharpeRun singleRange MetricKey.finalValue :=
  optimize_logs_failure_but_keeps_row absentSharpeRun singleRange MetricKey.finalValue
    [10] absentSharpeMetrics (by simp [itertools.product, singleRange]) rfl rfl

/-- C10: the comparison table of compare_strategies is ranked by the
Annual Return column in descending order (rows with an absent value
last) for every input; the ranking column is fixed in the source and not
caller-selected, as the statement holding for every run function and
configuration list with no metric parameter reflects. -/
theorem compare_ranked_by_annual_return {σ : Type} (runM : σ → Metrics)
    (strategy_configs : List (String × σ)) :
    (BacktestUtils.compare_strategies runM strategy_configs).Pairwise
      fun a b => keyGE a.metrics.annualReturn b.metrics.annualReturn := by
  unfold BacktestUtils.compare_strategies
  exact sort_values_desc_sorted _ _

end Quantics
